import Mathlib

/-!
Verification development for the FIUS infant presence detection GUI
application (src/app.py).  The file gives a shallow embedding of the
core orchestration code of the application: the notebook-output
extraction of show_notebook_output_in_tab, the subprocess pipeline of
execute_notebooks and run_task_pipeline, the worker wrapper posting the
completion status, the thread-safe log helper, and the on_close shutdown
handler.  Stateful code is embedded as explicit state passing; worker
observable actions (log calls, process spawns, registry operations,
stream reads, posted UI effects) are modelled as event traces; the
process-wide cancellation flag app_closing, which other threads may set
while a worker runs, is modelled as a Boolean function of an abstract
read counter so that each flag read by a worker is a distinct point in
time.
-/

namespace FIUSApp

/-! ## Notebook cells and the output extraction of
show_notebook_output_in_tab (app.py lines 229-260)

An executed notebook is an ordered list of cells.  Each cell carries a
cell type string, the metadata tag list, a source text and an output
collection.  Only the output shapes inspected by the code are
distinguished. -/

inductive CellType where
  | markdown
  | code
  | raw
  deriving DecidableEq

def CellType.asString : CellType → String
  | CellType.markdown => "markdown"
  | CellType.code => "code"
  | CellType.raw => "raw"

inductive NBOutput where
  | stream (text : String)
  | executeResult (textPlain : Option String)
  | displayData (textPlain : Option String)
  | errorOut (traceback : List String)
  | otherOut
  deriving DecidableEq

structure Cell where
  cell_type : CellType
  tags : List String
  source : String
  outputs : List NBOutput
  deriving DecidableEq

/-- Rendering of one entry of an output collection, app.py lines 246-258.
A stream output contributes its text; execute_result and display_data
contribute the text/plain datum when present and non-empty (the Python
code guards with a truthiness test); an error output contributes the
traceback joined with newlines when non-empty. -/
def renderOutput : NBOutput → List String
  | NBOutput.stream text => [text ++ "\n"]
  | NBOutput.executeResult tp =>
    match tp with
    | some t => if t = "" then [] else [t ++ "\n"]
    | none => []
  | NBOutput.displayData tp =>
    match tp with
    | some t => if t = "" then [] else [t ++ "\n"]
    | none => []
  | NBOutput.errorOut tb =>
    if tb = [] then [] else [String.intercalate "\n" tb ++ "\n"]
  | NBOutput.otherOut => []

/-- app.py lines 243-258: the block starting with the test for an empty
output collection.  In the source this block is dedented to the level of
the cell-type dispatch, so it runs for every tagged cell, not only for
code cells. -/
def renderCellOutputs (outs : List NBOutput) : List String :=
  if outs = [] then ["[no outputs]\n"]
  else (outs.map renderOutput).flatten

/-- app.py lines 232-258, embedded faithfully.  The accumulator outVar
models the Python local variable named outputs: it is assigned only in
the branch for tagged code cells and otherwise keeps its previous value
across loop iterations; referencing it before any assignment raises
UnboundLocalError, modelled as the error result (the surrounding Python
try block catches it and posts an error message instead of the report). -/
def collectCells : List Cell → Nat → Option (List NBOutput) → Except Unit (List String)
  | [], _, _ => Except.ok []
  | c :: cs, idx, outVar =>
    if "log_cm" ∈ c.tags then
      let header := "--- Cell " ++ toString idx ++ " (" ++ c.cell_type.asString ++ ") ---\n"
      let mdLines := if c.cell_type = CellType.markdown then [c.source ++ "\n"] else []
      let outVar2 := if c.cell_type = CellType.code then some c.outputs else outVar
      match outVar2 with
      | none => Except.error ()
      | some outs =>
        match collectCells cs (idx + 1) (some outs) with
        | Except.error e => Except.error e
        | Except.ok rest => Except.ok (header :: (mdLines ++ renderCellOutputs outs ++ rest))
    else
      collectCells cs (idx + 1) outVar

/-- app.py lines 229-260: the collected report text, with the single
newline appended after the loop. -/
def collectOutputs (cells : List Cell) : Except Unit String :=
  match collectCells cells 0 none with
  | Except.error _ => Except.error ()
  | Except.ok lines => Except.ok (String.join (lines ++ ["\n"]))

/-! ## Shutdown handler on_close (app.py lines 491-537)

on_close sets app_closing, snapshots the registry, sends a terminate
signal to each live member, polls until a fixed 3 second deadline and
sends a forced kill to any member still alive, joins worker threads with
a timeout (which does not modify worker_threads: the watcher threads of
start_worker do), clears the retained image references, and destroys the
root window.  A registered process is modelled with its liveness, an
oracle saying whether the graceful signal ends it before the deadline,
and flags recording which signals it received. -/

structure ProcState where
  pid : Nat
  alive : Bool
  diesOnTerminate : Bool
  gotTerminate : Bool
  gotKill : Bool
  deriving DecidableEq

structure AppState where
  app_closing : Bool
  spawned_processes : List ProcState
  worker_threads : List Nat
  fft_img_tks : List Nat
  fft_img_labels : List Nat
  root_alive : Bool
  deriving DecidableEq

/-- Effect of p.terminate() on one registered process (app.py lines
496-502): a live process receives the graceful signal and is gone
before the deadline exactly when the oracle says so; Popen.terminate on
an already finished process delivers nothing. -/
def terminateStep (p : ProcState) : ProcState :=
  if p.alive then { p with gotTerminate := true, alive := !p.diesOnTerminate } else p

/-- Effect of the deadline poll loop (app.py lines 504-513): a process
still alive at the deadline receives the forced kill. -/
def killStep (p : ProcState) : ProcState :=
  if p.alive then { p with gotKill := true, alive := false } else p

/-- app.py lines 491-537.  Note that on_close never removes entries from
spawned_processes: the only removals are the unregister_process calls
performed by each worker after reaping its own process. -/
def on_close (s : AppState) : AppState :=
  { app_closing := true
    spawned_processes := s.spawned_processes.map (fun p => killStep (terminateStep p))
    worker_threads := s.worker_threads
    fft_img_tks := []
    fft_img_labels := []
    root_alive := false }

/-! ## The log helper (app.py lines 76-87)

log returns silently when the output box or the root window has not been
created; otherwise it only schedules the widget mutation on the UI event
loop via root.after and never touches the widget on the calling thread.
The UI state is modelled with the optional widget content, the existence
of the root, and the queue of messages scheduled on the event loop. -/

structure LogState where
  output_box : Option (List String)
  root_exists : Bool
  uiQueue : List String
  deriving DecidableEq

def log (msg : String) (s : LogState) : LogState :=
  if s.output_box = none ∨ s.root_exists = false then s
  else { s with uiQueue := s.uiQueue ++ [msg] }

/-! ## Path derivation of the executed artifact (app.py lines 190-193)

The code derives the executed notebook path with os.path.dirname,
os.path.basename and os.path.join.  The three posixpath operations are
embedded on character lists exactly as CPython implements them for a
single path component: dirname takes the prefix up to the last slash and
strips trailing slashes unless the prefix consists of slashes only;
basename takes the suffix after the last slash; join of a and b returns
b when b is absolute, appends directly when a is empty or ends in a
slash, and inserts a slash otherwise. -/

def splitAtLastSlash : List Char → List Char × List Char
  | [] => ([], [])
  | c :: cs =>
    if cs.contains '/' then
      let r := splitAtLastSlash cs
      (c :: r.1, r.2)
    else if c = '/' then ([c], cs)
    else ([], c :: cs)

def basenameL (p : List Char) : List Char := (splitAtLastSlash p).2

def rstripSlash (h : List Char) : List Char :=
  (h.reverse.dropWhile (fun c => c == '/')).reverse

def dirnameL (p : List Char) : List Char :=
  let h := (splitAtLastSlash p).1
  if h.any (fun c => !(c == '/')) then rstripSlash h else h

def joinL (a b : List Char) : List Char :=
  if b.head? = some '/' then b
  else if a = [] ∨ a.getLast? = some '/' then a ++ b
  else a ++ '/' :: b

/-- app.py lines 190-193: executed_path = os.path.join(dirname,
"executed_" ++ basename). -/
def executedPathL (p : List Char) : List Char :=
  joinL (dirnameL p) ("executed_".data ++ basenameL p)

def executedPath (p : String) : String := String.mk (executedPathL p.data)

def pjoin (a b : String) : String := String.mk (joinL a.data b.data)

/-! ## Worker observable events

Each observable action of the pipeline workers is one event: the log
call sites of execute_notebooks, run_task_pipeline and the report
worker (one constructor per call site, carrying the data interpolated
into the message), process lifecycle actions (spawn = a successful
Popen, register_process, a streamed output line, terminate, wait,
unregister_process), the UI effects posted by the report worker, the
render request of plot_fft_from_numpy, and the completion status posted
by the task worker.  Traces pair each event with the value of the
abstract read counter for the app_closing flag at the moment the event
happened. -/

inductive Event where
  | logRun (nb : String)
  | logLaunchFail (nb err : String)
  | logLine (pid : Nat) (line : String)
  | logFinished (nb : String)
  | logRcError (nb : String) (rc : Int)
  | logConvFinished
  | logNoFFT (task : String)
  | logTrainFinished
  | spawn (pid : Nat)
  | registerP (pid : Nat)
  | terminate (pid : Nat)
  | wait (pid : Nat)
  | unregisterP (pid : Nat)
  | logFoundExecuted (path : String)
  | logPapermillRc (rc : Int)
  | logPapermillLaunchFail (err : String)
  | uiNotFound (path : String)
  | uiInsert (text : String)
  | uiError
  | renderRequest (paths : List String)
  | completion (status : String)
  deriving DecidableEq

/-- Outcome of a Popen call for one notebook: FileNotFoundError with the
exception text, or a created process with its streamed output lines and
its exit code. -/
inductive Launch where
  | fail (err : String)
  | ok (lines : List String) (rc : Int)
  deriving DecidableEq

structure NBItem where
  name : String
  launch : Launch
  deriving DecidableEq

/-- The output streaming loop shared by execute_notebooks (app.py lines
309-316) and the report worker (lines 207-214): each obtained line is
preceded by a read of app_closing; when the flag is observed true the
process is sent terminate and the loop breaks, otherwise the line is
logged.  The argument t is the index of the next flag read; the returned
counter is the index after the last read performed. -/
def streamLines (flag : Nat → Bool) (pid : Nat) : List String → Nat → List (Nat × Event) × Nat
  | [], t => ([], t)
  | l :: ls, t =>
    if flag t then ([(t, Event.terminate pid)], t + 1)
    else
      let r := streamLines flag pid ls (t + 1)
      ((t, Event.logLine pid l) :: r.1, r.2)

/-- Body of one iteration of the execute_notebooks loop after the
app_closing guard (app.py lines 293-322): log the start line, Popen; on
FileNotFoundError log and continue, otherwise register, stream, wait,
unregister, and log the outcome according to the exit code.  The events
before the first stream read are stamped with the time t of the guard
read that admitted this iteration. -/
def execItem (flag : Nat → Bool) (pid : Nat) (it : NBItem) (t : Nat) : List (Nat × Event) × Nat :=
  match it.launch with
  | Launch.fail err =>
    ([(t, Event.logRun it.name), (t, Event.logLaunchFail it.name err)], t + 1)
  | Launch.ok lines rc =>
    let s := streamLines flag pid lines (t + 1)
    ((t, Event.logRun it.name) :: (t, Event.spawn pid) :: (t, Event.registerP pid) :: s.1
       ++ [(s.2, Event.wait pid), (s.2, Event.unregisterP pid),
           (s.2, if rc = 0 then Event.logFinished it.name else Event.logRcError it.name rc)],
     s.2)

/-- app.py lines 284-322: execute_notebooks loops over the notebook
list; at the top of each iteration it reads app_closing and returns when
the flag is set, so a set flag skips every remaining item. -/
def execute_notebooks (flag : Nat → Bool) : List NBItem → Nat → Nat → List (Nat × Event) × Nat
  | [], _, t => ([], t)
  | it :: rest, pid, t =>
    if flag t then ([], t + 1)
    else
      let r := execItem flag pid it t
      let r2 := execute_notebooks flag rest (pid + 1) r.2
      (r.1 ++ r2.1, r2.2)

/-! ## The report worker show_notebook_output_in_tab (app.py lines
185-279) -/

structure ReportEnv where
  exists0 : String → Bool
  exists1 : String → Bool
  launch : Launch
  readNB : String → List Cell

/-- app.py lines 223-271: after the executed notebook has been located
or produced, the worker re-reads app_closing, re-checks existence of the
derived path, and either posts the missing-artifact message or parses
the notebook and posts the collected text (or the error message when the
extraction raised). -/
def afterRun (flag : Nat → Bool) (env : ReportEnv) (ep : String) (t : Nat) :
    List (Nat × Event) × Nat :=
  if flag t then ([], t + 1)
  else if env.exists1 ep = false then ([(t, Event.uiNotFound ep)], t + 1)
  else
    match collectOutputs (env.readNB ep) with
    | Except.error _ => ([(t, Event.uiError)], t + 1)
    | Except.ok text => ([(t, Event.uiInsert text)], t + 1)

/-- app.py lines 185-279, the worker body: guard on app_closing, derive
the executed path, and run papermill only when the derived path is
absent; when present, log the found-existing line and read directly. -/
def show_worker (flag : Nat → Bool) (env : ReportEnv) (pid : Nat) (p : String) (t : Nat) :
    List (Nat × Event) × Nat :=
  if flag t then ([], t + 1)
  else
    let ep := executedPath p
    if env.exists0 ep then
      let a := afterRun flag env ep (t + 1)
      ((t, Event.logFoundExecuted ep) :: a.1, a.2)
    else
      match env.launch with
      | Launch.fail err => ([(t, Event.logPapermillLaunchFail err)], t + 1)
      | Launch.ok lines rc =>
        let s := streamLines flag pid lines (t + 1)
        let a := afterRun flag env ep s.2
        ((t, Event.spawn pid) :: (t, Event.registerP pid) :: s.1
          ++ [(s.2, Event.wait pid), (s.2, Event.unregisterP pid)]
          ++ (if rc = 0 then [] else [(s.2, Event.logPapermillRc rc)]) ++ a.1, a.2)

/-! ## The task pipeline run_task_pipeline (app.py lines 331-407) and
the worker wrapper of run_task_window (lines 458-483)

The hardcoded task tables are embedded verbatim.  The environment
carries the flag, the Popen outcome oracle for conversion and training
notebooks (keyed by notebook name), the existence oracle for the FFT
numpy files, and the report stage environment.  The report worker and
the render worker run on their own threads in the source; their events
are placed inline at the point where the pipeline starts them, which
preserves every per-worker ordering property stated below.  Process
identifiers are allocated from disjoint ranges per stage. -/

structure ConvItem where
  notebook : String
  label_column_name : String
  label_value : Nat
  deriving DecidableEq

def conversion_notebooks_path : String :=
  "/Users/mandarkale/Documents/MyProjects/MachineLearning/FIUS_Based_Infant_Presence_Detection_in_Car_Seats/source_code/Notebooks/Exploration"

def conversion_map (task : String) : List ConvItem :=
  if task = "Task1" then
    [{ notebook := "ADC to FFT Emptyseat.ipynb", label_column_name := "Object_Presence", label_value := 0 },
     { notebook := "ADC to FFT Carrierseat.ipynb", label_column_name := "Object_Presence", label_value := 1 }]
  else if task = "Task2" then
    [{ notebook := "ADC to FFT Carrierseat.ipynb", label_column_name := "Infant_Presence", label_value := 0 },
     { notebook := "ADC to FFT Withbaby.ipynb", label_column_name := "Infant_Presence", label_value := 1 }]
  else if task = "Task3" then
    [{ notebook := "ADC to FFT Blanket and Sunscreen.ipynb", label_column_name := "Infant_Presence", label_value := 1 }]
  else []

def fft_base_path : String :=
  "/Users/mandarkale/Documents/MyProjects/MachineLearning/FIUS_Based_Infant_Presence_Detection_in_Car_Seats/source_code/Data/Processed"

def task_fft_files (task : String) : List String :=
  if task = "Task1" then
    [pjoin fft_base_path "Emptyseat_npy_array_Lowpassfiltered_label.npy",
     pjoin fft_base_path "CarrierSeat_Lowpassfiltered_Label_0_Infant_Presence.npy"]
  else if task = "Task2" then
    [pjoin fft_base_path "CarrierSeat_Lowpassfiltered_Label_0_Infant_Presence.npy",
     pjoin fft_base_path "Withbaby_npy_array_Lowpassfiltered.npy"]
  else if task = "Task3" then
    [pjoin fft_base_path "Blanket_and_Sunscreen_npy_array_Lowpassfiltered_Label_1.npy"]
  else []

def training_notebooks_path : String :=
  "/Users/mandarkale/Documents/MyProjects/MachineLearning/FIUS_Based_Infant_Presence_Detection_in_Car_Seats/source_code/Notebooks/Training"

def training_map (task : String) : List String :=
  if task = "Task1" then
    ["Task1_Empty seat or carrier seat Classification using XG Boost model and MLP model.ipynb"]
  else if task = "Task2" then
    ["Task2_With or without baby Detection using RanFor model and SVM model.ipynb"]
  else if task = "Task3" then
    ["Task3_Baby presence detection when covered in blanket or sunscreen.ipynb"]
  else []

structure PipelineEnv where
  flag : Nat → Bool
  conv : String → Launch
  fftExists : String → Bool
  train : String → Launch
  report : ReportEnv

/-- app.py lines 352-361: the conversion loop calls execute_notebooks
once per conversion entry with a one-element notebook list and the label
parameters; the parameters only shape the command line and are not
otherwise observable. -/
def runConvItems (env : PipelineEnv) : List ConvItem → Nat → Nat → List (Nat × Event) × Nat
  | [], _, t => ([], t)
  | ci :: rest, pid, t =>
    let r := execute_notebooks env.flag [{ name := ci.notebook, launch := env.conv ci.notebook }] pid t
    let r2 := runConvItems env rest (pid + 1) r.2
    (r.1 ++ r2.1, r2.2)

/-- app.py lines 331-407: guard on app_closing, conversion stage, the
conversion-finished log line, FFT render stage (render request when some
listed numpy file exists, otherwise the no-files log line), training
stage and report stage (both only when the task has a training
notebook). -/
def run_task_pipeline (env : PipelineEnv) (task : String) (t : Nat) : List (Nat × Event) × Nat :=
  if env.flag t then ([], t + 1)
  else
    let r1 := runConvItems env (conversion_map task) 0 (t + 1)
    let e2 : List (Nat × Event) := [(r1.2, Event.logConvFinished)]
    let fftPaths := (task_fft_files task).filter env.fftExists
    let e3 : List (Nat × Event) :=
      if fftPaths = [] then [(r1.2, Event.logNoFFT task)] else [(r1.2, Event.renderRequest fftPaths)]
    match training_map task with
    | [] => (r1.1 ++ e2 ++ e3, r1.2)
    | nb0 :: tlrest =>
      let r4 := execute_notebooks env.flag
        ((nb0 :: tlrest).map fun nb => { name := nb, launch := env.train nb }) 100 r1.2
      let r6 := show_worker env.flag env.report 200 (pjoin training_notebooks_path nb0) r4.2
      (r1.1 ++ e2 ++ e3 ++ r4.1 ++ [(r4.2, Event.logTrainFinished)] ++ r6.1, r6.2)

/-- app.py lines 458-483: the worker of _start_task runs the pipeline
and, since run_task_pipeline returns normally on every input of the
model (all failure modes it handles are converted to log lines), always
posts the single Completed status afterwards. -/
def taskWorker (env : PipelineEnv) (task : String) (t : Nat) : List (Nat × Event) :=
  let r := run_task_pipeline env task t
  r.1 ++ [(r.2, Event.completion (task ++ ": Completed ✅"))]

/-- Forget the flag-read stamps of a trace. -/
def etrace (x : List (Nat × Event)) : List Event := x.map Prod.snd

/-! ## C1: extraction of tagged cells -/

/-- A tagged code cell with one stream output, followed by a tagged
markdown cell: the input on which the dedented output block of app.py
lines 243-258 misattributes outputs. -/
def c1CodeCell : Cell :=
  { cell_type := CellType.code, tags := ["log_cm"], source := "", outputs := [NBOutput.stream "A"] }

def c1MarkdownCell : Cell :=
  { cell_type := CellType.markdown, tags := ["log_cm"], source := "M", outputs := [] }

/-- C1: the claim states that a marked markdown cell contributes only
its source text and that no output of a cell is attributed to a
different cell.  The code violates this: because the output block of
app.py lines 243-258 is dedented out of the code-cell branch, it runs
for every tagged cell reusing the stale Python local variable outputs.
On a tagged code cell with stream output A followed by a tagged markdown
cell with source M, the assembled text repeats A inside the markdown
section; and when the first tagged cell is a markdown cell the loop
reads the variable before any assignment, raising UnboundLocalError
(the error result). -/
theorem C1_stale_outputs_eval :
    collectOutputs [c1CodeCell, c1MarkdownCell] =
      Except.ok "--- Cell 0 (code) ---\nA\n--- Cell 1 (markdown) ---\nM\nA\n\n" ∧
    collectOutputs [c1MarkdownCell] = Except.error () := by
  exact ⟨rfl, rfl⟩

/-! ## C2 and C8: the shutdown handler -/

lemma proc_dead_after (p : ProcState) : (killStep (terminateStep p)).alive = false := by
  cases hp : p.alive <;> cases hd : p.diesOnTerminate <;>
    simp [terminateStep, killStep, hp, hd]

lemma proc_dead_fixed (q : ProcState) (h : q.alive = false) :
    killStep (terminateStep q) = q := by
  simp [terminateStep, killStep, h]

/-- C8: on_close called twice leaves exactly the state of one call: the
flag stays set, the registries are untouched by on_close itself, the
image reference lists stay empty, and every process signalled by the
first call is already finished so the second signalling pass changes
nothing. -/
theorem C8_on_close_idempotent (s : AppState) : on_close (on_close s) = on_close s := by
  simp only [on_close, List.map_map, AppState.mk.injEq, true_and, and_true]
  exact List.map_congr_left fun p _ =>
    proc_dead_fixed (killStep (terminateStep p)) (proc_dead_after p)

/-- One live registered process that responds to the graceful signal. -/
def c2Proc : ProcState :=
  { pid := 1, alive := true, diesOnTerminate := true, gotTerminate := false, gotKill := false }

def c2State : AppState :=
  { app_closing := false, spawned_processes := [c2Proc], worker_threads := [],
    fft_img_tks := [], fft_img_labels := [], root_alive := true }

/-- C2 counterexample: with one live registered process, on_close
signals it but the registry spawned_processes is not empty afterwards,
contradicting the claim that the registry is empty after the shutdown
terminate step.  on_close never removes registry entries; they are only
removed by each worker after reaping its own process. -/
theorem C2_registry_not_emptied_cex :
    (∀ p ∈ c2State.spawned_processes, p.alive = true) ∧
    (on_close c2State).spawned_processes ≠ [] := by
  exact ⟨by decide, by decide⟩

/-- C2 amended: after on_close runs with K live registered processes,
every one of the K has received the graceful terminate signal, any
process that does not finish before the 3 second deadline receives the
forced kill, every process is finished afterwards, and the registry
still holds exactly the K entries (it is not emptied by on_close). -/
theorem C2_terminate_all (s : AppState)
    (h : ∀ p ∈ s.spawned_processes, p.alive = true) :
    (on_close s).spawned_processes.length = s.spawned_processes.length ∧
    ∀ q ∈ (on_close s).spawned_processes,
      q.gotTerminate = true ∧ q.alive = false ∧
      (q.diesOnTerminate = false → q.gotKill = true) := by
  constructor
  · simp [on_close]
  · intro q hq
    simp only [on_close, List.mem_map] at hq
    obtain ⟨p, hp, rfl⟩ := hq
    have halive := h p hp
    cases hd : p.diesOnTerminate <;>
      simp [terminateStep, killStep, halive, hd]

theorem C2_terminate_all_witness :
    (∀ p ∈ c2State.spawned_processes, p.alive = true) ∧
    ((on_close c2State).spawned_processes.length = c2State.spawned_processes.length ∧
     ∀ q ∈ (on_close c2State).spawned_processes,
       q.gotTerminate = true ∧ q.alive = false ∧
       (q.diesOnTerminate = false → q.gotKill = true)) :=
  ⟨by decide, C2_terminate_all c2State (by decide)⟩

/-! ## C9: the log helper -/

/-- C9: log is a total function on the modelled state; when the output
box or the root window does not exist it returns the state unchanged
(silent drop), and otherwise it leaves the widget content untouched on
the calling thread and only appends the message to the queue of effects
scheduled on the UI event loop. -/
theorem C9_log_total_and_deferred (msg : String) (s : LogState) :
    (log msg s).output_box = s.output_box ∧
    (log msg s).root_exists = s.root_exists ∧
    ((s.output_box = none ∨ s.root_exists = false) → log msg s = s) ∧
    (s.output_box ≠ none → s.root_exists = true → (log msg s).uiQueue = s.uiQueue ++ [msg]) := by
  by_cases hc : s.output_box = none ∨ s.root_exists = false
  · refine ⟨by simp [log, hc], by simp [log, hc], fun _ => by simp [log, hc], ?_⟩
    intro hb hr
    rcases hc with hc | hc
    · exact absurd hc hb
    · rw [hr] at hc; exact absurd hc (by simp)
  · refine ⟨by simp [log, hc], by simp [log, hc], fun hx => absurd hx hc, fun _ _ => ?_⟩
    simp [log, hc]

theorem C9_log_witness :
    (log "x" { output_box := some [], root_exists := true, uiQueue := [] }).uiQueue = [] ++ ["x"] ∧
    log "y" { output_box := none, root_exists := true, uiQueue := [] } =
      { output_box := none, root_exists := true, uiQueue := [] } :=
  ⟨(C9_log_total_and_deferred "x" _).2.2.2 (by simp) rfl,
   (C9_log_total_and_deferred "y" _).2.2.1 (Or.inl rfl)⟩

/-! ## Path lemmas for C5 -/

lemma splitAtLastSlash_no_slash (b : List Char) (hb : '/' ∉ b) :
    splitAtLastSlash b = ([], b) := by
  cases b with
  | nil => rfl
  | cons c cs =>
    have h1 : '/' ∉ cs := fun h => hb (List.mem_cons_of_mem c h)
    have h2 : ¬c = '/' := fun h => hb (h ▸ List.mem_cons_self c cs)
    simp [splitAtLastSlash, h1, h2]

lemma splitAtLastSlash_append (a b : List Char) (hb : '/' ∉ b) :
    splitAtLastSlash (a ++ '/' :: b) = (a ++ ['/'], b) := by
  induction a with
  | nil => simp [splitAtLastSlash, hb]
  | cons c a2 ih =>
    have hmem : '/' ∈ a2 ++ '/' :: b := List.mem_append_right _ (List.mem_cons_self _ _)
    simp [splitAtLastSlash, hmem, ih]

lemma splitAtLastSlash_snd_no_slash (p : List Char) : '/' ∉ (splitAtLastSlash p).2 := by
  induction p with
  | nil => simp [splitAtLastSlash]
  | cons c cs ih =>
    by_cases h : '/' ∈ cs
    · simpa [splitAtLastSlash, h] using ih
    · by_cases hc : c = '/'
      · simp [splitAtLastSlash, h, hc]
      · have hc2 : ¬('/' = c) := fun hx => hc hx.symm
        simp [splitAtLastSlash, h, hc, hc2]

lemma rstripSlash_append_slash (d : List Char) :
    rstripSlash (d ++ ['/']) = rstripSlash d := by
  simp [rstripSlash, List.dropWhile_cons]

lemma rstripSlash_no_trailing (d : List Char) (hne : d ≠ [])
    (hlast : d.getLast? ≠ some '/') : rstripSlash d = d := by
  rcases List.eq_nil_or_concat d with rfl | ⟨L, a, rfl⟩
  · exact absurd rfl hne
  · have ha : a ≠ '/' := by
      intro h
      exact hlast (by simp [h, List.getLast?_concat])
    simp [rstripSlash, List.dropWhile_cons, ha]

lemma head?_dropWhile_false {α : Type} (p : α → Bool) (l : List α) (a : α)
    (h : (l.dropWhile p).head? = some a) : p a = false := by
  induction l with
  | nil => simp at h
  | cons x xs ih =>
    by_cases hp : p x = true
    · rw [List.dropWhile_cons_of_pos hp] at h
      exact ih h
    · rw [List.dropWhile_cons_of_neg hp] at h
      simp only [List.head?_cons, Option.some.injEq] at h
      subst h
      simpa using hp

lemma rstripSlash_ne_nil (h : List Char)
    (hx : h.any (fun c => !(c == '/')) = true) : rstripSlash h ≠ [] := by
  simp only [List.any_eq_true, Bool.not_eq_true', beq_eq_false_iff_ne] at hx
  obtain ⟨c, hc, hcs⟩ := hx
  intro hnil
  have : h.reverse.dropWhile (fun c => c == '/') = [] := by
    simpa [rstripSlash] using congrArg List.reverse hnil
  rw [List.dropWhile_eq_nil_iff] at this
  have := this c (by simpa using hc)
  simp at this
  exact hcs this

lemma rstripSlash_getLast_ne (h : List Char) (c : Char)
    (hc : (rstripSlash h).getLast? = some c) : c ≠ '/' := by
  have hrev : (rstripSlash h).getLast? = (h.reverse.dropWhile (fun c => c == '/')).head? := by
    simp [rstripSlash]
  rw [hrev] at hc
  have := head?_dropWhile_false (fun c => c == '/') h.reverse c hc
  simpa using this

lemma dirnameL_cases (p : List Char) :
    (dirnameL p).any (fun c => !(c == '/')) = false ∨
      (dirnameL p ≠ [] ∧ (dirnameL p).getLast? ≠ some '/') := by
  unfold dirnameL
  by_cases ha : ((splitAtLastSlash p).1).any (fun c => !(c == '/')) = true
  · right
    rw [if_pos ha]
    exact ⟨rstripSlash_ne_nil _ ha, fun heq => rstripSlash_getLast_ne _ '/' heq rfl⟩
  · left
    rw [if_neg ha]
    simpa using ha

lemma any_eq_false_getLast (d : List Char) (hne : d ≠ [])
    (ha : d.any (fun c => !(c == '/')) = false) : d.getLast? = some '/' := by
  rcases List.eq_nil_or_concat d with rfl | ⟨L, a, rfl⟩
  · exact absurd rfl hne
  · have hmem : a ∈ L.concat a := by simp
    rw [List.any_eq_false] at ha
    have ha2 : a = '/' := by simpa using ha a hmem
    simp [List.getLast?_concat, ha2]

/-- The core path fact behind C5: joining a dirname-shaped prefix with a
slash-free, non-absolute component yields a path whose basename is the
component and whose dirname is the prefix. -/
lemma joinL_parts (d e : List Char)
    (hd : d.any (fun c => !(c == '/')) = false ∨ (d ≠ [] ∧ d.getLast? ≠ some '/'))
    (he : '/' ∉ e) (hhead : e.head? ≠ some '/') :
    basenameL (joinL d e) = e ∧ dirnameL (joinL d e) = d := by
  rcases hd with hall | ⟨hne, hlast⟩
  · by_cases hdnil : d = []
    · have hj : joinL d e = e := by simp [joinL, hdnil, hhead]
      rw [hj]
      constructor
      · simp [basenameL, splitAtLastSlash_no_slash e he]
      · simp [dirnameL, splitAtLastSlash_no_slash e he, hdnil]
    · have hlast2 : d.getLast? = some '/' := any_eq_false_getLast d hdnil hall
      have hj : joinL d e = d ++ e := by simp [joinL, hhead, hlast2]
      rw [hj]
      rcases List.eq_nil_or_concat d with h0 | ⟨L, a, hda⟩
      · exact absurd h0 hdnil
      · have ha : a = '/' := by
          rw [hda] at hlast2
          simpa [List.getLast?_concat] using hlast2
        subst ha
        have hsplit : splitAtLastSlash (d ++ e) = (d, e) := by
          have h1 : d ++ e = L ++ '/' :: e := by rw [hda]; simp
          rw [h1, splitAtLastSlash_append L e he, hda]
          simp [List.concat_eq_append]
        constructor
        · simp [basenameL, hsplit]
        · simp [dirnameL, hsplit, hall]
  · have hj : joinL d e = d ++ '/' :: e := by simp [joinL, hhead, hne, hlast]
    rw [hj]
    have hsplit : splitAtLastSlash (d ++ '/' :: e) = (d ++ ['/'], e) :=
      splitAtLastSlash_append d e he
    constructor
    · simp [basenameL, hsplit]
    · have hany : (d ++ ['/']).any (fun c => !(c == '/')) = true := by
        rcases List.eq_nil_or_concat d with h0 | ⟨L, a, hda⟩
        · exact absurd h0 hne
        · have ha : ¬(a = '/') := by
            intro hx
            rw [hda] at hlast
            exact hlast (by simp [List.getLast?_concat, hx])
          rw [List.any_eq_true]
          refine ⟨a, ?_, by simp [ha]⟩
          rw [hda]
          simp
      simp [dirnameL, hsplit, hany, rstripSlash_append_slash,
        rstripSlash_no_trailing d hne hlast]

lemma executedPathL_parts (p : List Char) :
    basenameL (executedPathL p) = "executed_".data ++ basenameL p ∧
    dirnameL (executedPathL p) = dirnameL p := by
  have hb : '/' ∉ basenameL p := splitAtLastSlash_snd_no_slash p
  have hpre : '/' ∉ "executed_".data := by decide
  have he : '/' ∉ "executed_".data ++ basenameL p := by
    intro hx
    rcases List.mem_append.mp hx with hx | hx
    · exact hpre hx
    · exact hb hx
  have hhead : ("executed_".data ++ basenameL p).head? ≠ some '/' := by
    have : ("executed_".data ++ basenameL p).head? = some 'e' := rfl
    rw [this]
    decide
  exact joinL_parts (dirnameL p) ("executed_".data ++ basenameL p)
    (dirnameL_cases p) he hhead

/-! ## Trace scanners

Three executable well-formedness checks over untimed event traces.
spawnRegAdj holds when every successful spawn is immediately followed by
the register_process call for the same process (registered at spawn
time, before any read).  readRegS holds when every streamed output line
is read while its process is registered (it tracks the registered set
through register and unregister events).  unregWaitS holds when every
unregister_process call happens after the wait call for the same
process (unregistered only after reaping). -/

def spawnRegAdj : List Event → Bool
  | [] => true
  | Event.spawn p :: rest =>
    match rest with
    | Event.registerP q :: rest2 => p == q && spawnRegAdj rest2
    | _ => false
  | _ :: rest => spawnRegAdj rest

def readRegS : List Event → List Nat → Bool
  | [], _ => true
  | Event.registerP p :: evs, reg => readRegS evs (p :: reg)
  | Event.unregisterP p :: evs, reg => readRegS evs (reg.erase p)
  | Event.logLine p _ :: evs, reg => reg.contains p && readRegS evs reg
  | _ :: evs, reg => readRegS evs reg

def unregWaitS : List Event → List Nat → Bool
  | [], _ => true
  | Event.wait p :: evs, w => unregWaitS evs (p :: w)
  | Event.unregisterP p :: evs, w => w.contains p && unregWaitS evs w
  | _ :: evs, w => unregWaitS evs w

def isCompletion : Event → Bool
  | Event.completion _ => true
  | _ => false

/-- Names of the items whose start log line was emitted
(execute_notebooks logs one Running-notebook line per attempted item). -/
def startedNames (evs : List Event) : List String :=
  evs.filterMap fun e =>
    match e with
    | Event.logRun n => some n
    | _ => none

/-- The report worker performed the papermill invocation: either the
Popen succeeded (a spawn event) or it raised FileNotFoundError (the
launch failure log line). -/
def invokesPapermill (evs : List Event) : Bool :=
  evs.any fun e =>
    match e with
    | Event.spawn _ => true
    | Event.logPapermillLaunchFail _ => true
    | _ => false

def constFalse : Nat → Bool := fun _ => false

/-! ## Stream lemmas -/

@[simp] lemma etrace_nil : etrace [] = [] := rfl

@[simp] lemma etrace_cons (x : Nat × Event) (xs : List (Nat × Event)) :
    etrace (x :: xs) = x.2 :: etrace xs := rfl

@[simp] lemma etrace_append (a b : List (Nat × Event)) :
    etrace (a ++ b) = etrace a ++ etrace b := List.map_append _ _ _

lemma stream_mem (flag : Nat → Bool) (pid : Nat) :
    ∀ (lines : List String) (t : Nat), ∀ e ∈ etrace (streamLines flag pid lines t).1,
      (∃ l, e = Event.logLine pid l) ∨ e = Event.terminate pid := by
  intro lines
  induction lines with
  | nil => intro t e he; simp [streamLines] at he
  | cons l ls ih =>
    intro t e he
    by_cases hf : flag t
    · simp [streamLines, hf] at he
      exact Or.inr he
    · simp only [streamLines, hf, Bool.false_eq_true, if_false, etrace_cons, List.mem_cons] at he
      rcases he with he | he
      · exact Or.inl ⟨l, he⟩
      · exact ih (t + 1) e he

lemma stream_spawnRegAdj (flag : Nat → Bool) (pid : Nat) :
    ∀ (lines : List String) (t : Nat) (r : List Event),
      spawnRegAdj (etrace (streamLines flag pid lines t).1 ++ r) = spawnRegAdj r := by
  intro lines
  induction lines with
  | nil => intro t r; simp [streamLines]
  | cons l ls ih =>
    intro t r
    by_cases hf : flag t
    · simp [streamLines, hf, spawnRegAdj]
    · simp [streamLines, hf, spawnRegAdj, ih]

lemma stream_readRegS (flag : Nat → Bool) (pid : Nat) :
    ∀ (lines : List String) (t : Nat) (r : List Event) (reg : List Nat),
      pid ∈ reg →
      readRegS (etrace (streamLines flag pid lines t).1 ++ r) reg = readRegS r reg := by
  intro lines
  induction lines with
  | nil => intro t r reg _; simp [streamLines]
  | cons l ls ih =>
    intro t r reg hc
    by_cases hf : flag t
    · simp [streamLines, hf, readRegS]
    · simp [streamLines, hf, readRegS, hc, ih _ _ _ hc]

lemma stream_unregWaitS (flag : Nat → Bool) (pid : Nat) :
    ∀ (lines : List String) (t : Nat) (r : List Event) (w : List Nat),
      unregWaitS (etrace (streamLines flag pid lines t).1 ++ r) w = unregWaitS r w := by
  intro lines
  induction lines with
  | nil => intro t r w; simp [streamLines]
  | cons l ls ih =>
    intro t r w
    by_cases hf : flag t
    · simp [streamLines, hf, unregWaitS]
    · simp [streamLines, hf, unregWaitS, ih]

lemma stream_no_spawn (flag : Nat → Bool) (pid : Nat) (lines : List String) (t : Nat)
    (τ : Nat) (q : Nat) (h : (τ, Event.spawn q) ∈ (streamLines flag pid lines t).1) : False := by
  have hm : Event.spawn q ∈ etrace (streamLines flag pid lines t).1 :=
    List.mem_map_of_mem Prod.snd h
  rcases stream_mem flag pid lines t _ hm with ⟨l, hl⟩ | hl <;> simp at hl

lemma stream_terminates (flag : Nat → Bool) (pid : Nat) :
    ∀ (lines : List String) (t i : Nat), i < lines.length → flag (t + i) = true →
      ∃ τ, (τ, Event.terminate pid) ∈ (streamLines flag pid lines t).1 := by
  intro lines
  induction lines with
  | nil => intro t i hi _; simp at hi
  | cons l ls ih =>
    intro t i hi hfi
    by_cases hf : flag t
    · exact ⟨t, by simp [streamLines, hf]⟩
    · cases i with
      | zero => rw [Nat.add_zero] at hfi; exact absurd hfi hf
      | succ j =>
        have hj : j < ls.length := by simpa using hi
        have hfj : flag (t + 1 + j) = true := by
          have heq : t + 1 + j = t + (j + 1) := by omega
          rw [heq]; exact hfi
        obtain ⟨τ, hτ⟩ := ih (t + 1) j hj hfj
        exact ⟨τ, by simp [streamLines, hf, hτ]⟩

/-! ## Per-item lemmas for execute_notebooks -/

lemma stream_started (flag : Nat → Bool) (pid : Nat) (lines : List String) (t : Nat) :
    startedNames (etrace (streamLines flag pid lines t).1) = [] := by
  rw [startedNames, List.filterMap_eq_nil_iff]
  intro e he
  rcases stream_mem flag pid lines t e he with ⟨l, rfl⟩ | rfl <;> rfl

lemma stream_noCompl (flag : Nat → Bool) (pid : Nat) (lines : List String) (t : Nat)
    (s' : String) (he : Event.completion s' ∈ etrace (streamLines flag pid lines t).1) :
    False := by
  rcases stream_mem flag pid lines t _ he with ⟨l, hl⟩ | hl <;> simp at hl

lemma execItem_spawnRegAdj (flag : Nat → Bool) (pid : Nat) (it : NBItem) (t : Nat)
    (r : List Event) :
    spawnRegAdj (etrace (execItem flag pid it t).1 ++ r) = spawnRegAdj r := by
  cases hL : it.launch with
  | fail err => simp [execItem, hL, spawnRegAdj]
  | ok lines rc =>
    rcases eq_or_ne rc 0 with hrc | hrc <;>
      simp [execItem, hL, hrc, spawnRegAdj, stream_spawnRegAdj, List.append_assoc]

lemma execItem_readRegS (flag : Nat → Bool) (pid : Nat) (it : NBItem) (t : Nat)
    (reg : List Nat) (r : List Event) :
    readRegS (etrace (execItem flag pid it t).1 ++ r) reg = readRegS r reg := by
  cases hL : it.launch with
  | fail err => simp [execItem, hL, readRegS]
  | ok lines rc =>
    rcases eq_or_ne rc 0 with hrc | hrc <;>
      simp [execItem, hL, hrc, readRegS, stream_readRegS, List.append_assoc]

lemma execItem_unregWaitS (flag : Nat → Bool) (pid : Nat) (it : NBItem) (t : Nat) :
    ∃ w2, ∀ (w : List Nat) (r : List Event),
      unregWaitS (etrace (execItem flag pid it t).1 ++ r) w = unregWaitS r (w2 ++ w) := by
  cases hL : it.launch with
  | fail err => exact ⟨[], fun w r => by simp [execItem, hL, unregWaitS]⟩
  | ok lines rc =>
    refine ⟨[pid], fun w r => ?_⟩
    rcases eq_or_ne rc 0 with hrc | hrc <;>
      simp [execItem, hL, hrc, unregWaitS, stream_unregWaitS, List.append_assoc]

lemma execItem_spawnOk (flag : Nat → Bool) (pid : Nat) (it : NBItem) (t : Nat)
    (hf : flag t = false) (τ q : Nat)
    (h : (τ, Event.spawn q) ∈ (execItem flag pid it t).1) : flag τ = false := by
  cases hL : it.launch with
  | fail err => simp [execItem, hL] at h
  | ok lines rc =>
    rcases eq_or_ne rc 0 with hrc | hrc
    · simp [execItem, hL, hrc] at h
      rcases h with ⟨h1, h2⟩ | h
      · rw [← h1] at hf; exact hf
      · exact absurd h (fun hx => stream_no_spawn flag pid lines (t + 1) τ q hx)
    · simp [execItem, hL, hrc] at h
      rcases h with ⟨h1, h2⟩ | h
      · rw [← h1] at hf; exact hf
      · exact absurd h (fun hx => stream_no_spawn flag pid lines (t + 1) τ q hx)

lemma execItem_noCompl (flag : Nat → Bool) (pid : Nat) (it : NBItem) (t : Nat)
    (s' : String) (he : Event.completion s' ∈ etrace (execItem flag pid it t).1) :
    False := by
  cases hL : it.launch with
  | fail err => simp [execItem, hL] at he
  | ok lines rc =>
    rcases eq_or_ne rc 0 with hrc | hrc
    · simp [execItem, hL, hrc] at he
      exact stream_noCompl flag pid lines (t + 1) s' he
    · simp [execItem, hL, hrc] at he
      exact stream_noCompl flag pid lines (t + 1) s' he

lemma execItem_started (flag : Nat → Bool) (pid : Nat) (it : NBItem) (t : Nat) :
    startedNames (etrace (execItem flag pid it t).1) = [it.name] := by
  cases hL : it.launch with
  | fail err => simp [execItem, hL, startedNames]
  | ok lines rc =>
    rcases eq_or_ne rc 0 with hrc | hrc
    · simp [execItem, hL, hrc, startedNames, List.filterMap_append, List.filterMap_eq_nil_iff]
      intro a ha
      rcases stream_mem flag pid lines (t + 1) a ha with ⟨l, rfl⟩ | rfl <;> rfl
    · simp [execItem, hL, hrc, startedNames, List.filterMap_append, List.filterMap_eq_nil_iff]
      intro a ha
      rcases stream_mem flag pid lines (t + 1) a ha with ⟨l, rfl⟩ | rfl <;> rfl

/-! ## execute_notebooks lemmas -/

lemma startedNames_append (a b : List Event) :
    startedNames (a ++ b) = startedNames a ++ startedNames b :=
  List.filterMap_append _ _ _

lemma en_step (flag : Nat → Bool) (it : NBItem) (rest : List NBItem) (pid t : Nat)
    (hf : flag t = false) :
    (execute_notebooks flag (it :: rest) pid t).1 =
      (execItem flag pid it t).1 ++
        (execute_notebooks flag rest (pid + 1) (execItem flag pid it t).2).1 := by
  simp [execute_notebooks, hf]

lemma en_spawnRegAdj (flag : Nat → Bool) :
    ∀ (items : List NBItem) (pid t : Nat) (r : List Event),
      spawnRegAdj (etrace (execute_notebooks flag items pid t).1 ++ r) = spawnRegAdj r := by
  intro items
  induction items with
  | nil => intro pid t r; simp [execute_notebooks]
  | cons it rest ih =>
    intro pid t r
    by_cases hf : flag t
    · simp [execute_notebooks, hf]
    · rw [en_step flag it rest pid t (by simpa using hf), etrace_append, List.append_assoc,
        execItem_spawnRegAdj, ih]

lemma en_readRegS (flag : Nat → Bool) :
    ∀ (items : List NBItem) (pid t : Nat) (reg : List Nat) (r : List Event),
      readRegS (etrace (execute_notebooks flag items pid t).1 ++ r) reg = readRegS r reg := by
  intro items
  induction items with
  | nil => intro pid t reg r; simp [execute_notebooks]
  | cons it rest ih =>
    intro pid t reg r
    by_cases hf : flag t
    · simp [execute_notebooks, hf]
    · rw [en_step flag it rest pid t (by simpa using hf), etrace_append, List.append_assoc,
        execItem_readRegS, ih]

lemma en_unregWaitS (flag : Nat → Bool) :
    ∀ (items : List NBItem) (pid t : Nat),
      ∃ w2, ∀ (w : List Nat) (r : List Event),
        unregWaitS (etrace (execute_notebooks flag items pid t).1 ++ r) w =
          unregWaitS r (w2 ++ w) := by
  intro items
  induction items with
  | nil => intro pid t; exact ⟨[], fun w r => by simp [execute_notebooks]⟩
  | cons it rest ih =>
    intro pid t
    by_cases hf : flag t
    · exact ⟨[], fun w r => by simp [execute_notebooks, hf]⟩
    · obtain ⟨wi, hwi⟩ := execItem_unregWaitS flag pid it t
      obtain ⟨wr, hwr⟩ := ih (pid + 1) (execItem flag pid it t).2
      refine ⟨wr ++ wi, fun w r => ?_⟩
      rw [en_step flag it rest pid t (by simpa using hf), etrace_append, List.append_assoc,
        hwi, hwr, List.append_assoc]

lemma en_spawnOk (flag : Nat → Bool) :
    ∀ (items : List NBItem) (pid t τ q : Nat),
      (τ, Event.spawn q) ∈ (execute_notebooks flag items pid t).1 → flag τ = false := by
  intro items
  induction items with
  | nil => intro pid t τ q h; simp [execute_notebooks] at h
  | cons it rest ih =>
    intro pid t τ q h
    by_cases hf : flag t
    · simp [execute_notebooks, hf] at h
    · have hf2 : flag t = false := by simpa using hf
      rw [execute_notebooks, if_neg hf] at h
      simp only [List.mem_append] at h
      rcases h with h | h
      · exact execItem_spawnOk flag pid it t hf2 τ q h
      · exact ih (pid + 1) (execItem flag pid it t).2 τ q h

lemma en_noCompl (flag : Nat → Bool) :
    ∀ (items : List NBItem) (pid t : Nat) (s' : String),
      Event.completion s' ∈ etrace (execute_notebooks flag items pid t).1 → False := by
  intro items
  induction items with
  | nil => intro pid t s' h; simp [execute_notebooks] at h
  | cons it rest ih =>
    intro pid t s' h
    by_cases hf : flag t
    · simp [execute_notebooks, hf] at h
    · rw [en_step flag it rest pid t (by simpa using hf), etrace_append] at h
      rcases List.mem_append.mp h with h | h
      · exact execItem_noCompl flag pid it t s' h
      · exact ih (pid + 1) (execItem flag pid it t).2 s' h

lemma en_started :
    ∀ (items : List NBItem) (pid t : Nat),
      startedNames (etrace (execute_notebooks constFalse items pid t).1) =
        items.map NBItem.name := by
  intro items
  induction items with
  | nil => intro pid t; simp [execute_notebooks, startedNames]
  | cons it rest ih =>
    intro pid t
    rw [en_step constFalse it rest pid t rfl, etrace_append, startedNames_append,
      execItem_started, ih]
    simp

lemma en_launchFail_mem :
    ∀ (items : List NBItem) (pid t : Nat) (it : NBItem) (err : String),
      it ∈ items → it.launch = Launch.fail err →
      Event.logLaunchFail it.name err ∈ etrace (execute_notebooks constFalse items pid t).1 := by
  intro items
  induction items with
  | nil => intro pid t it err h _; simp at h
  | cons hd rest ih =>
    intro pid t it err hmem hL
    rw [en_step constFalse hd rest pid t rfl, etrace_append]
    rcases List.mem_cons.mp hmem with rfl | hmem2
    · exact List.mem_append_left _ (by simp [execItem, hL])
    · exact List.mem_append_right _ (ih (pid + 1) _ it err hmem2 hL)

lemma en_rcError_mem :
    ∀ (items : List NBItem) (pid t : Nat) (it : NBItem) (lines : List String) (rc : Int),
      it ∈ items → it.launch = Launch.ok lines rc → rc ≠ 0 →
      Event.logRcError it.name rc ∈ etrace (execute_notebooks constFalse items pid t).1 := by
  intro items
  induction items with
  | nil => intro pid t it lines rc h _ _; simp at h
  | cons hd rest ih =>
    intro pid t it lines rc hmem hL hrc
    rw [en_step constFalse hd rest pid t rfl, etrace_append]
    rcases List.mem_cons.mp hmem with rfl | hmem2
    · exact List.mem_append_left _ (by simp [execItem, hL, hrc])
    · exact List.mem_append_right _ (ih (pid + 1) _ it lines rc hmem2 hL hrc)

/-! ## afterRun and show_worker lemmas -/

lemma afterRun_cases (flag : Nat → Bool) (env : ReportEnv) (ep : String) (t : Nat) :
    (afterRun flag env ep t).1 = [] ∨
    (afterRun flag env ep t).1 = [(t, Event.uiNotFound ep)] ∨
    (afterRun flag env ep t).1 = [(t, Event.uiError)] ∨
    ∃ tx, (afterRun flag env ep t).1 = [(t, Event.uiInsert tx)] := by
  unfold afterRun
  by_cases hf : flag t
  · simp [hf]
  · by_cases he : env.exists1 ep = false
    · simp [hf, he]
    · cases hco : collectOutputs (env.readNB ep) with
      | error e0 => simp [hf, he, hco]
      | ok text =>
        right; right; right
        exact ⟨text, by simp [hf, he, hco]⟩

lemma afterRun_spawnRegAdj (flag : Nat → Bool) (env : ReportEnv) (ep : String) (t : Nat)
    (r : List Event) :
    spawnRegAdj (etrace (afterRun flag env ep t).1 ++ r) = spawnRegAdj r := by
  rcases afterRun_cases flag env ep t with h | h | h | ⟨tx, h⟩ <;> simp [h, spawnRegAdj]

lemma afterRun_readRegS (flag : Nat → Bool) (env : ReportEnv) (ep : String) (t : Nat)
    (reg : List Nat) (r : List Event) :
    readRegS (etrace (afterRun flag env ep t).1 ++ r) reg = readRegS r reg := by
  rcases afterRun_cases flag env ep t with h | h | h | ⟨tx, h⟩ <;> simp [h, readRegS]

lemma afterRun_unregWaitS (flag : Nat → Bool) (env : ReportEnv) (ep : String) (t : Nat)
    (w : List Nat) (r : List Event) :
    unregWaitS (etrace (afterRun flag env ep t).1 ++ r) w = unregWaitS r w := by
  rcases afterRun_cases flag env ep t with h | h | h | ⟨tx, h⟩ <;> simp [h, unregWaitS]

lemma afterRun_noSpawn (flag : Nat → Bool) (env : ReportEnv) (ep : String) (t τ q : Nat)
    (h : (τ, Event.spawn q) ∈ (afterRun flag env ep t).1) : False := by
  rcases afterRun_cases flag env ep t with h2 | h2 | h2 | ⟨tx, h2⟩ <;> simp [h2] at h

lemma afterRun_noCompl (flag : Nat → Bool) (env : ReportEnv) (ep : String) (t : Nat)
    (s' : String) (h : Event.completion s' ∈ etrace (afterRun flag env ep t).1) : False := by
  rcases afterRun_cases flag env ep t with h2 | h2 | h2 | ⟨tx, h2⟩ <;> simp [h2] at h

lemma sw_spawnRegAdj (flag : Nat → Bool) (env : ReportEnv) (pid : Nat) (p : String) (t : Nat)
    (r : List Event) :
    spawnRegAdj (etrace (show_worker flag env pid p t).1 ++ r) = spawnRegAdj r := by
  unfold show_worker
  by_cases hf : flag t
  · simp [hf]
  · by_cases he : env.exists0 (executedPath p)
    · simp [hf, he, spawnRegAdj, afterRun_spawnRegAdj]
    · cases hL : env.launch with
      | fail err => simp [hf, he, hL, spawnRegAdj]
      | ok lines rc =>
        rcases eq_or_ne rc 0 with hrc | hrc <;>
          simp [hf, he, hL, hrc, spawnRegAdj, stream_spawnRegAdj, afterRun_spawnRegAdj,
            List.append_assoc]

lemma sw_readRegS (flag : Nat → Bool) (env : ReportEnv) (pid : Nat) (p : String) (t : Nat)
    (reg : List Nat) (r : List Event) :
    readRegS (etrace (show_worker flag env pid p t).1 ++ r) reg = readRegS r reg := by
  unfold show_worker
  by_cases hf : flag t
  · simp [hf]
  · by_cases he : env.exists0 (executedPath p)
    · simp [hf, he, readRegS, afterRun_readRegS]
    · cases hL : env.launch with
      | fail err => simp [hf, he, hL, readRegS]
      | ok lines rc =>
        rcases eq_or_ne rc 0 with hrc | hrc <;>
          simp [hf, he, hL, hrc, readRegS, stream_readRegS, afterRun_readRegS,
            List.append_assoc]

lemma sw_unregWaitS (flag : Nat → Bool) (env : ReportEnv) (pid : Nat) (p : String) (t : Nat) :
    ∃ w2, ∀ (w : List Nat) (r : List Event),
      unregWaitS (etrace (show_worker flag env pid p t).1 ++ r) w = unregWaitS r (w2 ++ w) := by
  unfold show_worker
  by_cases hf : flag t
  · exact ⟨[], fun w r => by simp [hf]⟩
  · by_cases he : env.exists0 (executedPath p)
    · exact ⟨[], fun w r => by simp [hf, he, unregWaitS, afterRun_unregWaitS]⟩
    · cases hL : env.launch with
      | fail err => exact ⟨[], fun w r => by simp [hf, he, hL, unregWaitS]⟩
      | ok lines rc =>
        refine ⟨[pid], fun w r => ?_⟩
        rcases eq_or_ne rc 0 with hrc | hrc <;>
          simp [hf, he, hL, hrc, unregWaitS, stream_unregWaitS, afterRun_unregWaitS,
            List.append_assoc]

lemma sw_spawnOk (flag : Nat → Bool) (env : ReportEnv) (pid : Nat) (p : String) (t : Nat)
    (τ q : Nat) (h : (τ, Event.spawn q) ∈ (show_worker flag env pid p t).1) :
    flag τ = false := by
  unfold show_worker at h
  by_cases hf : flag t
  · simp [hf] at h
  · have hf2 : flag t = false := by simpa using hf
    by_cases he : env.exists0 (executedPath p)
    · simp [hf, he] at h
      exact absurd h (fun hx => afterRun_noSpawn flag env _ _ τ q hx)
    · cases hL : env.launch with
      | fail err => simp [hf, he, hL] at h
      | ok lines rc =>
        rcases eq_or_ne rc 0 with hrc | hrc
        · simp [hf, he, hL, hrc] at h
          rcases h with ⟨h1, h2⟩ | h | h
          · rw [← h1] at hf2; exact hf2
          · exact absurd h (fun hx => stream_no_spawn flag pid lines (t + 1) τ q hx)
          · exact absurd h (fun hx => afterRun_noSpawn flag env _ _ τ q hx)
        · simp [hf, he, hL, hrc] at h
          rcases h with ⟨h1, h2⟩ | h | h
          · rw [← h1] at hf2; exact hf2
          · exact absurd h (fun hx => stream_no_spawn flag pid lines (t + 1) τ q hx)
          · exact absurd h (fun hx => afterRun_noSpawn flag env _ _ τ q hx)

lemma sw_noCompl (flag : Nat → Bool) (env : ReportEnv) (pid : Nat) (p : String) (t : Nat)
    (s' : String) (h : Event.completion s' ∈ etrace (show_worker flag env pid p t).1) :
    False := by
  unfold show_worker at h
  by_cases hf : flag t
  · simp [hf] at h
  · by_cases he : env.exists0 (executedPath p)
    · simp [hf, he] at h
      exact afterRun_noCompl flag env _ _ s' h
    · cases hL : env.launch with
      | fail err => simp [hf, he, hL] at h
      | ok lines rc =>
        rcases eq_or_ne rc 0 with hrc | hrc
        · simp [hf, he, hL, hrc] at h
          rcases h with h | h
          · exact stream_noCompl flag pid lines (t + 1) s' h
          · exact afterRun_noCompl flag env _ _ s' h
        · simp [hf, he, hL, hrc] at h
          rcases h with h | h
          · exact stream_noCompl flag pid lines (t + 1) s' h
          · exact afterRun_noCompl flag env _ _ s' h

/-! ## runConvItems lemmas -/

lemma rci_step (env : PipelineEnv) (ci : ConvItem) (rest : List ConvItem) (pid t : Nat) :
    (runConvItems env (ci :: rest) pid t).1 =
      (execute_notebooks env.flag [{ name := ci.notebook, launch := env.conv ci.notebook }] pid t).1 ++
      (runConvItems env rest (pid + 1)
        (execute_notebooks env.flag [{ name := ci.notebook, launch := env.conv ci.notebook }] pid t).2).1 := by
  simp [runConvItems]

lemma rci_spawnRegAdj (env : PipelineEnv) :
    ∀ (cis : List ConvItem) (pid t : Nat) (r : List Event),
      spawnRegAdj (etrace (runConvItems env cis pid t).1 ++ r) = spawnRegAdj r := by
  intro cis
  induction cis with
  | nil => intro pid t r; simp [runConvItems]
  | cons ci rest ih =>
    intro pid t r
    rw [rci_step, etrace_append, List.append_assoc, en_spawnRegAdj, ih]

lemma rci_readRegS (env : PipelineEnv) :
    ∀ (cis : List ConvItem) (pid t : Nat) (reg : List Nat) (r : List Event),
      readRegS (etrace (runConvItems env cis pid t).1 ++ r) reg = readRegS r reg := by
  intro cis
  induction cis with
  | nil => intro pid t reg r; simp [runConvItems]
  | cons ci rest ih =>
    intro pid t reg r
    rw [rci_step, etrace_append, List.append_assoc, en_readRegS, ih]

lemma rci_unregWaitS (env : PipelineEnv) :
    ∀ (cis : List ConvItem) (pid t : Nat),
      ∃ w2, ∀ (w : List Nat) (r : List Event),
        unregWaitS (etrace (runConvItems env cis pid t).1 ++ r) w = unregWaitS r (w2 ++ w) := by
  intro cis
  induction cis with
  | nil => intro pid t; exact ⟨[], fun w r => by simp [runConvItems]⟩
  | cons ci rest ih =>
    intro pid t
    obtain ⟨wi, hwi⟩ := en_unregWaitS env.flag
      [{ name := ci.notebook, launch := env.conv ci.notebook }] pid t
    obtain ⟨wr, hwr⟩ := ih (pid + 1)
      (execute_notebooks env.flag [{ name := ci.notebook, launch := env.conv ci.notebook }] pid t).2
    refine ⟨wr ++ wi, fun w r => ?_⟩
    rw [rci_step, etrace_append, List.append_assoc, hwi, hwr, List.append_assoc]

lemma rci_spawnOk (env : PipelineEnv) :
    ∀ (cis : List ConvItem) (pid t τ q : Nat),
      (τ, Event.spawn q) ∈ (runConvItems env cis pid t).1 → env.flag τ = false := by
  intro cis
  induction cis with
  | nil => intro pid t τ q h; simp [runConvItems] at h
  | cons ci rest ih =>
    intro pid t τ q h
    rw [runConvItems] at h
    simp only [List.mem_append] at h
    rcases h with h | h
    · exact en_spawnOk env.flag _ pid t τ q h
    · exact ih (pid + 1) _ τ q h

lemma rci_noCompl (env : PipelineEnv) :
    ∀ (cis : List ConvItem) (pid t : Nat) (s' : String),
      Event.completion s' ∈ etrace (runConvItems env cis pid t).1 → False := by
  intro cis
  induction cis with
  | nil => intro pid t s' h; simp [runConvItems] at h
  | cons ci rest ih =>
    intro pid t s' h
    rw [rci_step, etrace_append] at h
    rcases List.mem_append.mp h with h | h
    · exact en_noCompl env.flag _ pid t s' h
    · exact ih (pid + 1) _ s' h

/-! ## Pipeline-level lemmas -/

lemma p_spawnRegAdj (env : PipelineEnv) (task : String) (t : Nat) (r : List Event) :
    spawnRegAdj (etrace (run_task_pipeline env task t).1 ++ r) = spawnRegAdj r := by
  unfold run_task_pipeline
  by_cases hf : env.flag t
  · simp [hf]
  · cases htm : training_map task with
    | nil =>
      by_cases hfp : ((task_fft_files task).filter env.fftExists) = [] <;>
        simp [hf, htm, hfp, spawnRegAdj, rci_spawnRegAdj, List.append_assoc]
    | cons nb0 tlrest =>
      by_cases hfp : ((task_fft_files task).filter env.fftExists) = [] <;>
        simp [hf, htm, hfp, spawnRegAdj, rci_spawnRegAdj, en_spawnRegAdj, sw_spawnRegAdj,
          List.append_assoc]

lemma p_readRegS (env : PipelineEnv) (task : String) (t : Nat) (reg : List Nat)
    (r : List Event) :
    readRegS (etrace (run_task_pipeline env task t).1 ++ r) reg = readRegS r reg := by
  unfold run_task_pipeline
  by_cases hf : env.flag t
  · simp [hf]
  · cases htm : training_map task with
    | nil =>
      by_cases hfp : ((task_fft_files task).filter env.fftExists) = [] <;>
        simp [hf, htm, hfp, readRegS, rci_readRegS, List.append_assoc]
    | cons nb0 tlrest =>
      by_cases hfp : ((task_fft_files task).filter env.fftExists) = [] <;>
        simp [hf, htm, hfp, readRegS, rci_readRegS, en_readRegS, sw_readRegS,
          List.append_assoc]

lemma p_unregWaitS (env : PipelineEnv) (task : String) (t : Nat) :
    ∃ w2, ∀ (w : List Nat) (r : List Event),
      unregWaitS (etrace (run_task_pipeline env task t).1 ++ r) w = unregWaitS r (w2 ++ w) := by
  by_cases hf : env.flag t
  · exact ⟨[], fun w r => by simp [run_task_pipeline, hf]⟩
  · obtain ⟨wc, hwc⟩ := rci_unregWaitS env (conversion_map task) 0 (t + 1)
    cases htm : training_map task with
    | nil =>
      refine ⟨wc, fun w r => ?_⟩
      by_cases hfp : ((task_fft_files task).filter env.fftExists) = [] <;>
        simp [run_task_pipeline, hf, htm, hfp, unregWaitS, hwc, List.append_assoc]
    | cons nb0 tlrest =>
      obtain ⟨wt, hwt⟩ := en_unregWaitS env.flag
        ((nb0 :: tlrest).map fun nb => { name := nb, launch := env.train nb }) 100
        (runConvItems env (conversion_map task) 0 (t + 1)).2
      obtain ⟨ws, hws⟩ := sw_unregWaitS env.flag env.report 200
        (pjoin training_notebooks_path nb0)
        (execute_notebooks env.flag
          ((nb0 :: tlrest).map fun nb => { name := nb, launch := env.train nb }) 100
          (runConvItems env (conversion_map task) 0 (t + 1)).2).2
      simp only [List.map_cons] at hwt hws
      refine ⟨ws ++ (wt ++ wc), fun w r => ?_⟩
      by_cases hfp : ((task_fft_files task).filter env.fftExists) = [] <;>
        simp [run_task_pipeline, hf, htm, hfp, unregWaitS, hwc, hwt, hws, List.append_assoc]

lemma p_spawnOk (env : PipelineEnv) (task : String) (t τ q : Nat)
    (h : (τ, Event.spawn q) ∈ (run_task_pipeline env task t).1) : env.flag τ = false := by
  rw [run_task_pipeline] at h
  by_cases hf : env.flag t
  · simp [hf] at h
  · cases htm : training_map task with
    | nil =>
      by_cases hfp : ((task_fft_files task).filter env.fftExists) = []
      · simp [hf, htm, hfp] at h
        exact rci_spawnOk env _ 0 (t + 1) τ q h
      · simp [hf, htm, hfp] at h
        exact rci_spawnOk env _ 0 (t + 1) τ q h
    | cons nb0 tlrest =>
      by_cases hfp : ((task_fft_files task).filter env.fftExists) = []
      · simp [hf, htm, hfp] at h
        rcases h with h | h | h
        · exact rci_spawnOk env _ 0 (t + 1) τ q h
        · exact en_spawnOk env.flag _ 100 _ τ q h
        · exact sw_spawnOk env.flag env.report 200 _ _ τ q h
      · simp [hf, htm, hfp] at h
        rcases h with h | h | h
        · exact rci_spawnOk env _ 0 (t + 1) τ q h
        · exact en_spawnOk env.flag _ 100 _ τ q h
        · exact sw_spawnOk env.flag env.report 200 _ _ τ q h

lemma p_noCompl (env : PipelineEnv) (task : String) (t : Nat) (s' : String)
    (h : Event.completion s' ∈ etrace (run_task_pipeline env task t).1) : False := by
  rw [run_task_pipeline] at h
  by_cases hf : env.flag t
  · simp [hf] at h
  · cases htm : training_map task with
    | nil =>
      by_cases hfp : ((task_fft_files task).filter env.fftExists) = []
      · simp [hf, htm, hfp] at h
        exact rci_noCompl env _ 0 (t + 1) s' h
      · simp [hf, htm, hfp] at h
        exact rci_noCompl env _ 0 (t + 1) s' h
    | cons nb0 tlrest =>
      by_cases hfp : ((task_fft_files task).filter env.fftExists) = []
      · simp [hf, htm, hfp] at h
        rcases h with h | h | h
        · exact rci_noCompl env _ 0 (t + 1) s' h
        · exact en_noCompl env.flag _ 100 _ s' h
        · exact sw_noCompl env.flag env.report 200 _ _ s' h
      · simp [hf, htm, hfp] at h
        rcases h with h | h | h
        · exact rci_noCompl env _ 0 (t + 1) s' h
        · exact en_noCompl env.flag _ 100 _ s' h
        · exact sw_noCompl env.flag env.report 200 _ _ s' h

lemma tw_trace (env : PipelineEnv) (task : String) (t : Nat) :
    etrace (taskWorker env task t) =
      etrace (run_task_pipeline env task t).1 ++
        [Event.completion (task ++ ": Completed ✅")] := by
  simp [taskWorker]

/-! ## Claim theorems C3, C4, C5, C6, C7, C10 -/

lemma isCompletion_shape (e : Event) (h : isCompletion e = true) :
    ∃ s, e = Event.completion s := by
  cases e <;> simp [isCompletion] at h
  exact ⟨_, rfl⟩

lemma p_countCompl (env : PipelineEnv) (task : String) (t : Nat) :
    (etrace (run_task_pipeline env task t).1).countP isCompletion = 0 := by
  rw [List.countP_eq_zero]
  intro e he hc
  obtain ⟨s', rfl⟩ := isCompletion_shape e hc
  exact p_noCompl env task t s' he

/-- C7: in every task worker trace, for all environments, each
successful spawn is immediately followed by the registration of the same
process (registered at spawn time, before any read of its output
stream), every streamed line is read while its process is registered,
and each unregistration happens only after the wait on the same process
(unregistered only after reaping).  This covers the subprocess loops of
execute_notebooks and of the report worker. -/
theorem C7_registration_window (env : PipelineEnv) (task : String) (t : Nat) :
    spawnRegAdj (etrace (taskWorker env task t)) = true ∧
    readRegS (etrace (taskWorker env task t)) [] = true ∧
    unregWaitS (etrace (taskWorker env task t)) [] = true := by
  refine ⟨?_, ?_, ?_⟩
  · rw [tw_trace, p_spawnRegAdj]
    rfl
  · rw [tw_trace, p_readRegS]
    rfl
  · obtain ⟨w2, hw⟩ := p_unregWaitS env task t
    rw [tw_trace, hw [] _]
    rfl

/-- C6: cooperative cancellation.  (1) When app_closing is already set
at pipeline entry, the pipeline emits no event at all: no stage starts
and no process is spawned.  (2) Every spawn in a pipeline trace happens
at a read time at which the flag was observed false, so no new process
is spawned after the flag is set (relative to the guarding read, which
is how the cooperative scheme re-checks the flag before each stage
item).  (3) In the shared streaming loop, if the flag is set at any of
the per-line reads, the in-flight process receives a terminate
signal. -/
theorem C6_cooperative_cancellation :
    (∀ (env : PipelineEnv) (task : String) (t : Nat),
       env.flag t = true → (run_task_pipeline env task t).1 = []) ∧
    (∀ (env : PipelineEnv) (task : String) (t τ q : Nat),
       (τ, Event.spawn q) ∈ (run_task_pipeline env task t).1 → env.flag τ = false) ∧
    (∀ (flag : Nat → Bool) (pid : Nat) (lines : List String) (t i : Nat),
       i < lines.length → flag (t + i) = true →
       ∃ τ, (τ, Event.terminate pid) ∈ (streamLines flag pid lines t).1) := by
  refine ⟨?_, ?_, fun flag pid => stream_terminates flag pid⟩
  · intro env task t hf
    simp [run_task_pipeline, hf]
  · exact fun env task t τ q h => p_spawnOk env task t τ q h

def c6Env : PipelineEnv :=
  { flag := fun _ => true
    conv := fun _ => Launch.ok [] 0
    fftExists := fun _ => false
    train := fun _ => Launch.ok [] 0
    report :=
      { exists0 := fun _ => false
        exists1 := fun _ => false
        launch := Launch.fail "x"
        readNB := fun _ => [] } }

theorem C6_witness :
    (run_task_pipeline c6Env "Task1" 0).1 = [] ∧
    (∃ τ, (τ, Event.terminate 7) ∈ (streamLines (fun _ => true) 7 ["line"] 0).1) :=
  ⟨C6_cooperative_cancellation.1 c6Env "Task1" 0 rfl,
   C6_cooperative_cancellation.2.2 (fun _ => true) 7 ["line"] 0 0 (by decide) rfl⟩

def c3Env : PipelineEnv :=
  { flag := fun _ => false
    conv := fun _ => Launch.ok [] 1
    fftExists := fun _ => false
    train := fun _ => Launch.ok [] 0
    report :=
      { exists0 := fun _ => false
        exists1 := fun _ => false
        launch := Launch.fail "x"
        readNB := fun _ => [] } }

def c3CancelEnv : PipelineEnv :=
  { flag := fun _ => true
    conv := fun _ => Launch.ok [] 0
    fftExists := fun _ => false
    train := fun _ => Launch.ok [] 0
    report :=
      { exists0 := fun _ => false
        exists1 := fun _ => false
        launch := Launch.fail "x"
        readNB := fun _ => [] } }

/-- C3 counterexample: the claim says a completion message never carries
a success status when an item failed or the run was cancelled.  In the
code the worker posts the Completed status whenever run_task_pipeline
returns, which it does after item failures (they are only logged) and
after a cancelled entry (early return).  With every conversion notebook
exiting with code 1, the trace contains the per-item error log line and
still ends with the Completed status; and with the flag already set the
cancelled run also posts the Completed status. -/
theorem C3_success_despite_failure_cex :
    (Event.logRcError "ADC to FFT Emptyseat.ipynb" 1 ∈
      etrace (taskWorker c3Env "Task1" 0) ∧
     Event.completion "Task1: Completed ✅" ∈ etrace (taskWorker c3Env "Task1" 0)) ∧
    etrace (taskWorker c3CancelEnv "Task1" 0) = [Event.completion "Task1: Completed ✅"] :=
  ⟨⟨by decide, by decide⟩, by decide⟩

/-- C3 amended: the worker posts exactly one completion message per
run, and its status is the success status (Completed) whenever the
pipeline returns, regardless of item failures or cancellation; the
embedded pipeline is total, so the status is always Completed. -/
theorem C3_single_completion (env : PipelineEnv) (task : String) (t : Nat) :
    (etrace (taskWorker env task t)).countP isCompletion = 1 ∧
    Event.completion (task ++ ": Completed ✅") ∈ etrace (taskWorker env task t) := by
  constructor
  · rw [tw_trace, List.countP_append, p_countCompl]
    rfl
  · rw [tw_trace]
    exact List.mem_append_right _ (List.mem_singleton_self _)

/-- C4: with no cancellation, every declared item of a multi-item
external-process stage is attempted in order (one Running-notebook log
line per item, in declaration order), a launch failure is logged and the
loop continues, and a non-zero exit code is logged as a failure; the
embedding of execute_notebooks is a total function, so no failure
escapes the stage. -/
theorem C4_item_failures_isolated (items : List NBItem) (pid t : Nat) :
    startedNames (etrace (execute_notebooks constFalse items pid t).1) =
      items.map NBItem.name ∧
    (∀ it ∈ items, ∀ err, it.launch = Launch.fail err →
      Event.logLaunchFail it.name err ∈
        etrace (execute_notebooks constFalse items pid t).1) ∧
    (∀ it ∈ items, ∀ lines rc, it.launch = Launch.ok lines rc → rc ≠ 0 →
      Event.logRcError it.name rc ∈
        etrace (execute_notebooks constFalse items pid t).1) :=
  ⟨en_started items pid t,
   fun it hm err hL => en_launchFail_mem items pid t it err hm hL,
   fun it hm lines rc hL hrc => en_rcError_mem items pid t it lines rc hm hL hrc⟩

def c4Items : List NBItem :=
  [{ name := "a.ipynb", launch := Launch.fail "boom" },
   { name := "b.ipynb", launch := Launch.ok ["out"] 2 }]

theorem C4_witness :
    startedNames (etrace (execute_notebooks constFalse c4Items 0 0).1) =
      c4Items.map NBItem.name ∧
    Event.logLaunchFail "a.ipynb" "boom" ∈
      etrace (execute_notebooks constFalse c4Items 0 0).1 ∧
    Event.logRcError "b.ipynb" 2 ∈ etrace (execute_notebooks constFalse c4Items 0 0).1 :=
  ⟨(C4_item_failures_isolated c4Items 0 0).1,
   (C4_item_failures_isolated c4Items 0 0).2.1
     { name := "a.ipynb", launch := Launch.fail "boom" } (by decide) "boom" rfl,
   (C4_item_failures_isolated c4Items 0 0).2.2
     { name := "b.ipynb", launch := Launch.ok ["out"] 2 } (by decide) ["out"] 2 rfl
     (by decide)⟩

/-- C5: the report worker derives the executed path by applying the
fixed prefix to the basename of the input inside the same directory
(parts three and four), and the papermill invocation (a spawn, or the
Popen failure log when the interpreter is missing) happens exactly when
the derived path is absent; when the derived file exists it is read
directly, with the found-existing log line and no invocation. -/
theorem C5_report_cache_by_presence (flag : Nat → Bool) (env : ReportEnv) (pid : Nat)
    (p : String) (t : Nat) (hf : flag t = false) :
    (invokesPapermill (etrace (show_worker flag env pid p t).1) = true ↔
      env.exists0 (executedPath p) = false) ∧
    (env.exists0 (executedPath p) = true →
      Event.logFoundExecuted (executedPath p) ∈ etrace (show_worker flag env pid p t).1) ∧
    basenameL (executedPathL p.data) = "executed_".data ++ basenameL p.data ∧
    dirnameL (executedPathL p.data) = dirnameL p.data := by
  refine ⟨?_, ?_, (executedPathL_parts p.data).1, (executedPathL_parts p.data).2⟩
  · unfold show_worker
    by_cases he : env.exists0 (executedPath p)
    · rw [if_neg (by simp [hf]), if_pos he]
      constructor
      · intro hinv
        exfalso
        rcases afterRun_cases flag env (executedPath p) (t + 1) with h2 | h2 | h2 | ⟨tx, h2⟩ <;>
          simp [invokesPapermill, h2] at hinv
      · intro hcontra
        rw [he] at hcontra
        simp at hcontra
    · rw [if_neg (by simp [hf]), if_neg he]
      cases hL : env.launch with
      | fail err => simp [invokesPapermill, he]
      | ok lines rc =>
        simp only [he, eq_self_iff_true, iff_true]
        simp [invokesPapermill]
  · intro he
    unfold show_worker
    rw [if_neg (by simp [hf]), if_pos he]
    simp

def c5Env : ReportEnv :=
  { exists0 := fun s => s = "/nb/executed_train.ipynb"
    exists1 := fun _ => false
    launch := Launch.ok [] 0
    readNB := fun _ => [] }

theorem C5_witness :
    ((fun _ => false : Nat → Bool) 0 = false) ∧
    (invokesPapermill (etrace (show_worker (fun _ => false) c5Env 3 "/nb/train.ipynb" 0).1) = true ↔
      c5Env.exists0 (executedPath "/nb/train.ipynb") = false) ∧
    (c5Env.exists0 (executedPath "/nb/train.ipynb") = true →
      Event.logFoundExecuted (executedPath "/nb/train.ipynb") ∈
        etrace (show_worker (fun _ => false) c5Env 3 "/nb/train.ipynb" 0).1) ∧
    basenameL (executedPathL "/nb/train.ipynb".data) =
      "executed_".data ++ basenameL "/nb/train.ipynb".data ∧
    dirnameL (executedPathL "/nb/train.ipynb".data) = dirnameL "/nb/train.ipynb".data :=
  ⟨rfl, C5_report_cache_by_presence (fun _ => false) c5Env 3 "/nb/train.ipynb" 0 rfl⟩

/-- C10: for a task name that is none of Task1, Task2 and Task3, the
pipeline has no conversion item, no FFT file, no training notebook and
no report stage: the worker trace consists of exactly the
conversion-finished log line, the no-FFT-files log line and the single
Completed status, with no spawn and no exception. -/
theorem C10_unknown_task (env : PipelineEnv) (task : String) (t : Nat)
    (h1 : task ≠ "Task1") (h2 : task ≠ "Task2") (h3 : task ≠ "Task3")
    (hf : env.flag t = false) :
    taskWorker env task t =
      [(t + 1, Event.logConvFinished), (t + 1, Event.logNoFFT task),
       (t + 1, Event.completion (task ++ ": Completed ✅"))] := by
  simp [taskWorker, run_task_pipeline, conversion_map, task_fft_files, training_map,
    runConvItems, hf, h1, h2, h3]

def c10Env : PipelineEnv :=
  { flag := fun _ => false
    conv := fun _ => Launch.ok [] 0
    fftExists := fun _ => false
    train := fun _ => Launch.ok [] 0
    report :=
      { exists0 := fun _ => false
        exists1 := fun _ => false
        launch := Launch.fail "x"
        readNB := fun _ => [] } }

theorem C10_witness :
    taskWorker c10Env "Task4" 0 =
      [(1, Event.logConvFinished), (1, Event.logNoFFT "Task4"),
       (1, Event.completion "Task4: Completed ✅")] :=
  C10_unknown_task c10Env "Task4" 0 (by decide) (by decide) (by decide) rfl

end FIUSApp
